import Mathlib

/-!
yomitai: archive catalog and page endpoint

A shallow embedding of `main.go`: the identifier codec (`base64.StdEncoding`),
the startup walk that builds the catalog `s.files`, and the page handler
`state.getImage`.  Go strings are byte sequences, Go `int` values are
mathematical integers (every value that occurs is an entry count or the result
of `strconv.Atoi`, both inside the 64-bit range), and what the handler does to
the outside world (response writer, archive handles) is explicit state.
-/

namespace Yomitai

deriving instance DecidableEq for Except

/-! ## Go strings -/

/-- A Go byte. -/
abbrev Byte := Fin 256

/-- A Go string: an arbitrary sequence of bytes. -/
abbrev GoString := List Byte

/-- The bytes of an ASCII string literal of the source. -/
def str (s : String) : GoString := s.toList.map (fun c => Fin.ofNat c.toNat)

/-! ## encoding/base64, StdEncoding

`main.go` calls `base64.StdEncoding.EncodeToString` (line 143) and
`base64.StdEncoding.DecodeString` (line 48).  Both are Go standard library
functions; the definitions below follow `Encoding.Encode` and
`Encoding.decodeQuantum` of `encoding/base64` for the standard alphabet with
padding character `=` and non-strict mode. -/

/-- The standard alphabet of RFC 4648: `encodeStd`. -/
def encodeStd : GoString :=
  str "ABCDEFGHIJKLMNOPQRSTUVWXYZabcdefghijklmnopqrstuvwxyz0123456789+/"

/-- The padding character `StdPadding`. -/
def padChar : Byte := 61

/-- The table lookup `enc.encode[v]`; every index used is masked with `0x3F`. -/
def encodeChar (v : Nat) : Byte := encodeStd.getD v 0

/-- The table lookup `enc.decodeMap[c]`: the position of `c` in the alphabet,
`none` standing for the filler value `0xff` of bytes outside the alphabet. -/
def decodeMap (c : Byte) : Option Nat :=
  let i := encodeStd.indexOf c
  if i < 64 then some i else none

/-- Go `Encoding.EncodeToString`: three source bytes become four characters;
a final block of one or two bytes is padded with `=`. -/
def EncodeToString : GoString → GoString
  | b0 :: b1 :: b2 :: rest =>
    let val := (b0.val <<< 16) ||| (b1.val <<< 8) ||| b2.val
    encodeChar ((val >>> 18) &&& 0x3F) :: encodeChar ((val >>> 12) &&& 0x3F) ::
      encodeChar ((val >>> 6) &&& 0x3F) :: encodeChar (val &&& 0x3F) ::
        EncodeToString rest
  | [b0, b1] =>
    let val := (b0.val <<< 16) ||| (b1.val <<< 8)
    [encodeChar ((val >>> 18) &&& 0x3F), encodeChar ((val >>> 12) &&& 0x3F),
      encodeChar ((val >>> 6) &&& 0x3F), padChar]
  | [b0] =>
    let val := b0.val <<< 16
    [encodeChar ((val >>> 18) &&& 0x3F), encodeChar ((val >>> 12) &&& 0x3F),
      padChar, padChar]
  | [] => []

/-- Go `base64.CorruptInputError`.  The byte offset carried by the Go value
only shows in the error text and is not recorded. -/
inductive CorruptInputError where
  | corrupt
  deriving DecidableEq, Repr

/-- The loop `for si < len(src) && (src[si] == 10 || src[si] == 13) { si++ }`
of `decodeQuantum`. -/
def skipNewlines : GoString → GoString
  | c :: rest => if c = 10 ∨ c = 13 then skipNewlines rest else c :: rest
  | [] => []

/-- The tail of `decodeQuantum`: the sextets read so far (`dbuf`, `dlen` of
them) are packed into `val`, and `dlen - 1` bytes are emitted. -/
def quantum (dbuf : List Nat) : GoString :=
  let val := (dbuf.getD 0 0 <<< 18) ||| (dbuf.getD 1 0 <<< 12) |||
    (dbuf.getD 2 0 <<< 6) ||| dbuf.getD 3 0
  ([Fin.ofNat (val >>> 16), Fin.ofNat (val >>> 8), Fin.ofNat val] : GoString).take
    (dbuf.length - 1)

/-- The loop of `Encoding.Decode` over `decodeQuantum`, as one recursion on the
unread input; `dbuf` holds the sextets of the quantum being read (its length is
the loop variable `j`).  An error discards the bytes decoded so far, which the
caller in `main.go` never looks at. -/
def decodeLoop (dbuf : List Nat) : GoString → Except CorruptInputError GoString
  | [] => if dbuf.length = 0 then .ok [] else .error .corrupt
  | c :: rest =>
    match decodeMap c with
    | some v =>
      if dbuf.length = 3 then
        match decodeLoop [] rest with
        | .ok out => .ok (quantum (dbuf ++ [v]) ++ out)
        | .error e => .error e
      else decodeLoop (dbuf ++ [v]) rest
    | none =>
      if c = 10 ∨ c = 13 then decodeLoop dbuf rest
      else if c ≠ padChar then .error .corrupt
      else
        match dbuf.length with
        | 0 => .error .corrupt
        | 1 => .error .corrupt
        | 2 =>
          match skipNewlines rest with
          | [] => .error .corrupt
          | c2 :: rest2 =>
            if c2 ≠ padChar then .error .corrupt
            else if skipNewlines rest2 ≠ [] then .error .corrupt
            else .ok (quantum dbuf)
        | _ =>
          if skipNewlines rest ≠ [] then .error .corrupt
          else .ok (quantum dbuf)

/-- Go `Encoding.DecodeString`. -/
def DecodeString (s : GoString) : Except CorruptInputError GoString :=
  decodeLoop [] s

/-! ## strconv.Atoi -/

/-- The two error causes of `strconv.NumError`: `ErrSyntax` and `ErrRange`. -/
inductive NumErrorKind where
  | ErrSyntax
  | ErrRange
  deriving DecidableEq, Repr

/-- The digit loop of `strconv.ParseUint(s, 10, 64)`: a byte that is not a
decimal digit is a syntax error, a value above `2^64 - 1` a range error. -/
def parseUint (n : Nat) : GoString → Except NumErrorKind Nat
  | [] => .ok n
  | c :: cs =>
    if 48 ≤ c.val ∧ c.val ≤ 57 then
      let n1 := n * 10 + (c.val - 48)
      if n1 ≥ 2 ^ 64 then .error .ErrRange else parseUint n1 cs
    else .error .ErrSyntax

/-- Go `strconv.Atoi` on a 64-bit platform: an optional sign, then at least one
decimal digit, the value inside the range of `int`. -/
def Atoi (s : GoString) : Except NumErrorKind Int :=
  match s with
  | [] => .error .ErrSyntax
  | c :: rest =>
    let neg := c = 45
    let digits := if c = 43 ∨ c = 45 then rest else s
    if digits = [] then .error .ErrSyntax
    else
      match parseUint 0 digits with
      | .error e => .error e
      | .ok un =>
        if ¬ neg ∧ un ≥ 2 ^ 63 then .error .ErrRange
        else if neg ∧ un > 2 ^ 63 then .error .ErrRange
        else .ok (if neg then - (un : Int) else (un : Int))

/-! ## path/filepath.Ext -/

/-- The loop of `filepath.Ext`, walking from the last byte towards the front:
`rev` is the part not yet looked at (reversed), `acc` the bytes already passed.
The path separator is `/`. -/
def extLoop : GoString → GoString → GoString
  | [], _ => []
  | c :: rest, acc =>
    if c = 47 then []
    else if c = 46 then c :: acc
    else extLoop rest (c :: acc)

/-- Go `filepath.Ext`: the suffix beginning at the final dot in the final
element of the path, empty if there is no dot. -/
def Ext (path : GoString) : GoString := extLoop path.reverse []

/-! ## Errors, archives and the file system -/

/-- The Go `error` values that reach the code of `main.go`. -/
inductive GoError where
  | numError (kind : NumErrorKind)
  | corruptInput
  | os (msg : GoString)
  | nilDereference
  deriving DecidableEq, Repr

/-- What reading an opened archive entry yields: `data`, followed by `io.EOF`
when `err` is `none` and by that error otherwise. -/
structure EntryStream where
  data : GoString
  err : Option GoError
  deriving DecidableEq, Repr

/-- Go `zip.File`: an entry of the central directory with its name and the
result of its method `Open`. -/
structure ZipFile where
  Name : GoString
  Open : Except GoError EntryStream
  deriving DecidableEq

/-- Go `zip.ReadCloser`: the entries in central-directory order. -/
structure ReadCloser where
  File : List ZipFile
  deriving DecidableEq

/-- Go `os.FileInfo`, of which only `Name()` is used. -/
structure FileInfo where
  Name : GoString
  deriving DecidableEq, Repr

/-- One call of the walk function by `filepath.Walk`: `info` is `none` when
`Lstat` failed and Walk passes a nil `FileInfo`. -/
structure Visit where
  path : GoString
  info : Option FileInfo
  deriving DecidableEq, Repr

/-- The world outside the program: what `zip.OpenReader` returns for a path,
the sequence of calls `filepath.Walk` makes below a root as long as the walk
function returns nil, and the text `err.Error()` of an error. -/
structure World where
  OpenReader : GoString → Except GoError ReadCloser
  walk : GoString → List Visit
  Error : GoError → GoString

/-- Go slice indexing `xs[i]`; `none` is the run-time panic for an index out
of range. -/
def index {α : Type} (xs : List α) (i : Int) : Option α :=
  if i < 0 then none else xs.get? i.toNat

/-! ## The catalog -/

/-- The struct `file` of `main.go`. -/
structure file where
  Name : GoString
  Len : Int
  Contents : List GoString
  deriving DecidableEq, Repr

/-- The map type `map[string]*file`: keys are unique. -/
abbrev FileMap := List (GoString × file)

/-- Map assignment `m[k] = v`: an existing entry for `k` is replaced. -/
def mapSet (m : FileMap) (k : GoString) (v : file) : FileMap :=
  (k, v) :: m.filter (fun e => e.1 ≠ k)

/-- Map lookup `m[k]`; `none` is the nil pointer of an absent key. -/
def mapGet (m : FileMap) (k : GoString) : Option file :=
  (m.find? (fun e => e.1 = k)).map Prod.snd

/-- The keys of a map. -/
def keys (m : FileMap) : List GoString := m.map Prod.fst

/-- The struct `state` of `main.go`; `files` is `none` while the map is nil.
The fields `serv`, `cache` and `mu` are not read by the code modelled here. -/
structure state where
  files : Option FileMap
  deriving DecidableEq

/-! ## net/http: the response writer -/

/-- Go `http.Header`, keys in canonical form. -/
abbrev Header := List (String × String)

/-- Go `Header.Del`. -/
def Header.Del (h : Header) (k : String) : Header := h.filter (fun e => e.1 ≠ k)

/-- Go `Header.Set`. -/
def Header.Set (h : Header) (k v : String) : Header := (k, v) :: Header.Del h k

/-- Go `Header.Get`. -/
def Header.Get (h : Header) (k : String) : Option String :=
  (h.find? (fun e => e.1 = k)).map Prod.snd

/-- The `http.ResponseWriter` of one request: the header map the handler
edits, the status line once written (with the header as it was sent), and the
body bytes written so far. -/
structure ResponseWriter where
  header : Header
  wrote : Option (Int × Header)
  body : GoString
  deriving DecidableEq

/-- The writer a handler receives. -/
def ResponseWriter.fresh : ResponseWriter := { header := [], wrote := none, body := [] }

/-- Go `ResponseWriter.WriteHeader`: the first call fixes the status and the
header; a later call is superfluous and changes nothing. -/
def ResponseWriter.WriteHeader (w : ResponseWriter) (code : Int) : ResponseWriter :=
  match w.wrote with
  | some _ => w
  | none => { w with wrote := some (code, w.header) }

/-- Go `ResponseWriter.Write`: writes the header with status 200 if it has not
been written, then appends to the body. -/
def ResponseWriter.Write (w : ResponseWriter) (data : GoString) : ResponseWriter :=
  let w1 := w.WriteHeader 200
  { w1 with body := w1.body ++ data }

/-- Go `http.Error`. -/
def httpError (w : ResponseWriter) (error : GoString) (code : Int) : ResponseWriter :=
  let h := w.header.Del "Content-Length"
  let h := h.Set "Content-Type" "text/plain; charset=utf-8"
  let h := h.Set "X-Content-Type-Options" "nosniff"
  let w1 := { w with header := h }
  let w2 := w1.WriteHeader code
  w2.Write (error ++ str "\n")

/-- Go `io.Copy(w, rc)`: the bytes the stream yields are written to `w`
(nothing is written for an empty stream); the result is the error that ended
the stream, if any. -/
def ioCopy (w : ResponseWriter) (rc : EntryStream) : ResponseWriter × Option GoError :=
  let w1 := if rc.data = [] then w else w.Write rc.data
  (w1, rc.err)

/-- Go `http.StatusText(404)`. -/
def StatusText404 : GoString := str "Not Found"

/-- The response as the server sends it once the handler has returned: a
handler that never wrote the header gets status 200. -/
structure Response where
  status : Int
  header : Header
  body : GoString
  deriving DecidableEq

/-- The server finishing the request after the handler returned. -/
def finish (w : ResponseWriter) : Response :=
  match w.wrote with
  | some (code, h) => { status := code, header := h, body := w.body }
  | none => { status := 200, header := w.header, body := w.body }

/-! ## The handler `getImage` -/

/-- The route variables `mux.Vars(r)` of a request to `/{file}/{page}`. -/
structure Request where
  file : GoString
  page : GoString
  deriving DecidableEq, Repr

/-- What the handler does to archive handles and entry streams. -/
inductive Event where
  | OpenReader (name : GoString) (ok : Bool)
  | zipClose (name : GoString)
  | fileOpen (i : Int) (ok : Bool)
  | rcClose (i : Int)
  deriving DecidableEq, Repr

/-- The outcome of one run of a handler: the response writer, the trace of
archive operations, and whether the run ended in a run-time panic. -/
structure Handled where
  w : ResponseWriter
  log : List Event
  panicked : Bool
  deriving DecidableEq

/-- Lines 59 to 73 of `getImage`: what runs between `defer zip.Close()` and
the deferred call. -/
def getImageBody (world : World) (w : ResponseWriter) (zip : ReadCloser) (i : Int) : Handled :=
  if i ≥ (zip.File.length : Int) ∨ i < 0 then
    { w := httpError w StatusText404 404, log := [], panicked := false }
  else
    match index zip.File i with
    | none => { w := w, log := [], panicked := true }
    | some zf =>
      match zf.Open with
      | .error err =>
        { w := httpError w (world.Error err) 500, log := [.fileOpen i false], panicked := false }
      | .ok rc =>
        match ioCopy w rc with
        | (w1, some err) =>
          { w := httpError w1 (world.Error err) 500, log := [.fileOpen i true],
            panicked := false }
        | (w1, none) =>
          { w := w1, log := [.fileOpen i true, .rcClose i], panicked := false }

/-- The method `(s *state) getImage` of `main.go`. -/
def getImage (world : World) (_s : state) (w : ResponseWriter) (r : Request) : Handled :=
  let w := { w with header := w.header.Set "Cache-Control" "max-age=84600, public" }
  let f := r.file
  match Atoi r.page with
  | .error err =>
    { w := httpError w (world.Error (.numError err)) 500, log := [], panicked := false }
  | .ok i =>
    match DecodeString f with
    | .error _ =>
      { w := httpError w (world.Error .corruptInput) 500, log := [], panicked := false }
    | .ok dec =>
      match world.OpenReader dec with
      | .error err =>
        { w := httpError w (world.Error err) 500, log := [.OpenReader dec false],
          panicked := false }
      | .ok zip =>
        let b := getImageBody world w zip i
        { w := b.w, log := .OpenReader dec true :: (b.log ++ [.zipClose dec]),
          panicked := b.panicked }

/-- The response a client gets for a request routed to `getImage`. -/
def serveImage (world : World) (s : state) (r : Request) : Response :=
  finish (getImage world s ResponseWriter.fresh r).w

/-! ## The startup walk of `main` -/

/-- What the walk function returns: nil, an error, or a run-time panic. -/
inductive WalkResult where
  | nil
  | err (e : GoError)
  | panic
  deriving DecidableEq, Repr

/-- Lines 132 to 141 of `main`: the catalog entry built from an opened
archive. -/
def newFile (info : FileInfo) (zip : ReadCloser) : file :=
  { Name := info.Name,
    Len := (zip.File.length : Int) - 1,
    Contents := zip.File.foldl (fun c zf => c ++ [zf.Name]) [] }

/-- The function literal passed to `filepath.Walk` in `main` (lines 128 to
145), acting on the local map `files`. -/
def walkFn (world : World) (files : FileMap) (v : Visit) : FileMap × WalkResult :=
  if Ext v.path ≠ str ".zip" then (files, .nil)
  else
    match v.info with
    | none => (files, .panic)
    | some info =>
      match world.OpenReader v.path with
      | .error err => (files, .err err)
      | .ok zip => (mapSet files (EncodeToString v.path) (newFile info zip), .nil)

/-- Go `filepath.Walk` over the calls it would make: it stops at the first
call of the walk function that does not return nil.  The second component is
the list of paths the walk function was called on. -/
def Walk (world : World) : List Visit → FileMap → FileMap × List GoString × WalkResult
  | [], files => (files, [], .nil)
  | v :: rest, files =>
    match walkFn world files v with
    | (files1, .nil) =>
      match Walk world rest files1 with
      | (files2, visited, r) => (files2, v.path :: visited, r)
    | (files1, r) => (files1, [v.path], r)

/-- How `main` leaves the startup phase: the state `s`, the value it panicked
with (if it did), and the paths the walk visited. -/
structure Started where
  s : state
  panicValue : Option GoError
  visited : List GoString
  deriving DecidableEq

/-- The startup part of `main` (lines 97 and 122 to 149) for the root
directory given by the flag `-data`. -/
def main (world : World) (root : GoString) : Started :=
  let s : state := { files := none }
  let files : FileMap := []
  match Walk world (world.walk root) files with
  | (files1, visited, .nil) =>
    { s := { s with files := some files1 }, panicValue := none, visited := visited }
  | (_, visited, .err err) => { s := s, panicValue := some err, visited := visited }
  | (_, visited, .panic) => { s := s, panicValue := some .nilDereference, visited := visited }

/-! ## A small world for concrete runs

The root `data` holds a text file and two archives; a third archive lies
outside the root, and `data2` holds an archive that does not open. -/

/-- The archive `vol1.zip`: three pages, the second of which does not open and
the third of which breaks off while it is read. -/
def vol1 : ReadCloser :=
  { File := [
      { Name := str "p0.jpg", Open := .ok { data := [1, 2, 3], err := none } },
      { Name := str "p1.jpg", Open := .error (.os (str "zip: unsupported compression")) },
      { Name := str "p2.jpg",
        Open := .ok { data := [7, 8], err := some (.os (str "unexpected EOF")) } }] }

/-- An archive with one page, outside the root that is indexed. -/
def secret : ReadCloser :=
  { File := [{ Name := str "s.png", Open := .ok { data := [9], err := none } }] }

/-- The demo world. -/
def demo : World :=
  { OpenReader := fun p =>
      if p = str "data/vol1.zip" then .ok vol1
      else if p = str "data/empty.zip" then .ok { File := [] }
      else if p = str "other/secret.zip" then .ok secret
      else .error (.os (str "open: no such file or directory")),
    walk := fun root =>
      if root = str "data" then
        [{ path := str "data", info := some { Name := str "data" } },
         { path := str "data/empty.zip", info := some { Name := str "empty.zip" } },
         { path := str "data/notes.txt", info := some { Name := str "notes.txt" } },
         { path := str "data/vol1.zip", info := some { Name := str "vol1.zip" } }]
      else if root = str "data2" then
        [{ path := str "data2", info := some { Name := str "data2" } },
         { path := str "data2/bad.zip", info := some { Name := str "bad.zip" } },
         { path := str "data2/vol2.zip", info := some { Name := str "vol2.zip" } }]
      else [{ path := root, info := none }],
    Error := fun e =>
      match e with
      | .numError .ErrSyntax => str "strconv.Atoi: invalid syntax"
      | .numError .ErrRange => str "strconv.Atoi: value out of range"
      | .corruptInput => str "illegal base64 data"
      | .os msg => msg
      | .nilDereference => str "invalid memory address or nil pointer dereference" }

/-- The state of the server after `main` indexed the root `data`. -/
def demoState : state := (main demo (str "data")).s

/-- The request for page `page` of the archive at `path`. -/
def pageRequest (path page : String) : Request :=
  { file := EncodeToString (str path), page := str page }

/-! ## Predicates used in the statements -/

/-- The cache directive `getImage` sets in line 40. -/
def cacheDirective : String := "max-age=84600, public"

/-- A header carries the cache directive. -/
def hasCacheControl (h : Header) : Prop := h.Get "Cache-Control" = some cacheDirective

/-- The writer carries the cache directive, both in the header map and in the
header already sent (if one was sent). -/
def keepsCacheControl (w : ResponseWriter) : Prop :=
  hasCacheControl w.header ∧ ∀ c h, w.wrote = some (c, h) → hasCacheControl h

/-- The visit is of a path with the archive extension. -/
def isZip (v : Visit) : Bool := decide (Ext v.path = str ".zip")

/-- The identifier under which the walk function files a visited path. -/
def identifier (v : Visit) : GoString := EncodeToString v.path

/-- The walk function reaches `zip.OpenReader` for the visit and the archive
opens: Walk passed a `FileInfo` and `zip.OpenReader` returns no error. -/
def opens (world : World) (v : Visit) : Prop :=
  v.info.isSome = true ∧ (world.OpenReader v.path).isOk = true

instance (world : World) (v : Visit) : Decidable (opens world v) := by
  unfold opens
  infer_instance

/-- The map holds, under the identifier of `path`, an entry of the shape the
walk function builds from the archive `zip`. -/
def hasEntry (files : FileMap) (path : GoString) (zip : ReadCloser) : Prop :=
  ∃ f, mapGet files (EncodeToString path) = some f ∧
    f.Contents = zip.File.map ZipFile.Name ∧ f.Len = (zip.File.length : Int) - 1

/-! ## Round trip of the codec -/

theorem decodeMap_encodeChar (v : Nat) (h : v < 64) : decodeMap (encodeChar v) = some v := by
  revert v
  decide

theorem mask_lt (x : Nat) : x &&& 0x3F < 64 := by
  have h := Nat.and_pow_two_sub_one_eq_mod x 6
  have e : (2 ^ 6 - 1 : Nat) = 0x3F := by norm_num
  rw [e] at h
  rw [h]
  exact Nat.mod_lt _ (by norm_num)

theorem mask_eq (x : Nat) : x &&& 0x3F = x % 64 := by
  have h := Nat.and_pow_two_sub_one_eq_mod x 6
  have e : (2 ^ 6 - 1 : Nat) = 0x3F := by norm_num
  rw [e] at h
  rw [h]

theorem shl_or (a b i : Nat) (h : b < 2 ^ i) : (a <<< i) ||| b = a * 2 ^ i + b := by
  rw [Nat.shiftLeft_eq, Nat.mul_comm, ← Nat.mul_add_lt_is_or h]

theorem byte_ofNat (b : Byte) : (Fin.ofNat b.val : Byte) = b := by
  apply Fin.ext
  simp [Fin.ofNat, Nat.mod_eq_of_lt b.isLt]

theorem pack3 (a b c : Nat) (hb : b < 256) (hc : c < 256) :
    (a <<< 16) ||| (b <<< 8) ||| c = a * 65536 + b * 256 + c := by
  have h1 : (a <<< 16) ||| (b <<< 8) = a * 2 ^ 16 + b <<< 8 :=
    shl_or a (b <<< 8) 16 (by rw [Nat.shiftLeft_eq]; omega)
  have h2 : a * 2 ^ 16 + b <<< 8 = (a * 256 + b) <<< 8 := by
    simp only [Nat.shiftLeft_eq]; omega
  rw [h1, h2, shl_or _ c 8 (by omega)]
  omega

theorem pack4 (a b c d : Nat) (hb : b < 64) (hc : c < 64) (hd : d < 64) :
    (a <<< 18) ||| (b <<< 12) ||| (c <<< 6) ||| d = a * 262144 + b * 4096 + c * 64 + d := by
  have h1 : (a <<< 18) ||| (b <<< 12) = a * 2 ^ 18 + b <<< 12 :=
    shl_or a (b <<< 12) 18 (by rw [Nat.shiftLeft_eq]; omega)
  have h2 : a * 2 ^ 18 + b <<< 12 = (a * 64 + b) <<< 12 := by
    simp only [Nat.shiftLeft_eq]; omega
  have h3 : ((a * 64 + b) <<< 12) ||| (c <<< 6) = (a * 64 + b) * 2 ^ 12 + c <<< 6 :=
    shl_or _ (c <<< 6) 12 (by rw [Nat.shiftLeft_eq]; omega)
  have h4 : (a * 64 + b) * 2 ^ 12 + c <<< 6 = ((a * 64 + b) * 64 + c) <<< 6 := by
    simp only [Nat.shiftLeft_eq]; omega
  rw [h1, h2, h3, h4, shl_or _ d 6 (by omega)]
  omega

/-- A full quantum: the four characters of three bytes decode to those bytes. -/
theorem quantum_full (b0 b1 b2 : Byte) :
    quantum [(((b0.val <<< 16) ||| (b1.val <<< 8) ||| b2.val) >>> 18) &&& 0x3F,
      (((b0.val <<< 16) ||| (b1.val <<< 8) ||| b2.val) >>> 12) &&& 0x3F,
      (((b0.val <<< 16) ||| (b1.val <<< 8) ||| b2.val) >>> 6) &&& 0x3F,
      ((b0.val <<< 16) ||| (b1.val <<< 8) ||| b2.val) &&& 0x3F] = [b0, b1, b2] := by
  have h0 := b0.isLt
  have h1 := b1.isLt
  have h2 := b2.isLt
  rw [pack3 _ _ _ h1 h2]
  simp only [quantum, List.getD_cons_zero, List.getD_cons_succ, List.length_cons,
    List.length_nil, mask_eq, Nat.shiftRight_eq_div_pow]
  rw [pack4 _ _ _ _ (Nat.mod_lt _ (by norm_num)) (Nat.mod_lt _ (by norm_num))
    (Nat.mod_lt _ (by norm_num))]
  simp only [List.take, List.cons.injEq, and_true]
  refine ⟨?_, ?_, ?_⟩ <;> apply Fin.ext <;> simp only [Fin.ofNat, Fin.val_mk] <;> omega

/-- A final block of two bytes: three characters and one pad. -/
theorem quantum_two (b0 b1 : Byte) :
    quantum [(((b0.val <<< 16) ||| (b1.val <<< 8)) >>> 18) &&& 0x3F,
      (((b0.val <<< 16) ||| (b1.val <<< 8)) >>> 12) &&& 0x3F,
      (((b0.val <<< 16) ||| (b1.val <<< 8)) >>> 6) &&& 0x3F] = [b0, b1] := by
  have h0 := b0.isLt
  have h1 := b1.isLt
  have e : (b0.val <<< 16) ||| (b1.val <<< 8) = b0.val * 65536 + b1.val * 256 := by
    have := pack3 b0.val b1.val 0 h1 (by norm_num)
    simpa using this
  rw [e]
  simp only [quantum, List.getD_cons_zero, List.getD_cons_succ, List.length_cons,
    List.length_nil, mask_eq, Nat.shiftRight_eq_div_pow, List.getD_nil]
  rw [pack4 _ _ _ _ (Nat.mod_lt _ (by norm_num)) (Nat.mod_lt _ (by norm_num)) (by norm_num)]
  simp only [List.take, List.cons.injEq, and_true]
  refine ⟨?_, ?_⟩ <;> apply Fin.ext <;> simp only [Fin.ofNat, Fin.val_mk] <;> omega

/-- A final block of one byte: two characters and two pads. -/
theorem quantum_one (b0 : Byte) :
    quantum [((b0.val <<< 16) >>> 18) &&& 0x3F, ((b0.val <<< 16) >>> 12) &&& 0x3F] = [b0] := by
  have h0 := b0.isLt
  have e : b0.val <<< 16 = b0.val * 65536 := by rw [Nat.shiftLeft_eq]
  rw [e]
  simp only [quantum, List.getD_cons_zero, List.getD_cons_succ, List.length_cons,
    List.length_nil, mask_eq, Nat.shiftRight_eq_div_pow, List.getD_nil]
  rw [pack4 _ _ _ _ (Nat.mod_lt _ (by norm_num)) (by norm_num) (by norm_num)]
  simp only [List.take, List.cons.injEq, and_true]
  apply Fin.ext
  simp only [Fin.ofNat, Fin.val_mk]
  omega

theorem decodeMap_padChar : decodeMap padChar = none := by decide

theorem decodeLoop_encode (p : GoString) : decodeLoop [] (EncodeToString p) = .ok p := by
  induction p using EncodeToString.induct with
  | case1 b0 b1 b2 rest ih =>
    simp only [EncodeToString, decodeLoop, decodeMap_encodeChar _ (mask_lt _), List.length_nil,
      List.nil_append, List.length_cons, List.cons_append, ih, quantum_full]
    simp
  | case2 b0 b1 =>
    simp only [EncodeToString, decodeLoop, decodeMap_encodeChar _ (mask_lt _), List.length_nil,
      List.nil_append, List.length_cons, List.cons_append, decodeMap_padChar, quantum_two,
      skipNewlines]
    simp [padChar]
  | case3 b0 =>
    simp only [EncodeToString, decodeLoop, decodeMap_encodeChar _ (mask_lt _), List.length_nil,
      List.nil_append, List.length_cons, List.cons_append, decodeMap_padChar, quantum_one,
      skipNewlines]
    simp [padChar, skipNewlines]
  | case4 => simp [EncodeToString, decodeLoop]


/-! ## The response writer -/

theorem find_filter_of_imp {α : Type} (p q : α → Bool) (l : List α)
    (h : ∀ x, p x = true → q x = true) : (l.filter q).find? p = l.find? p := by
  induction l with
  | nil => rfl
  | cons e t ih =>
    cases hq : q e with
    | true =>
      rw [List.filter_cons_of_pos hq]
      cases hp : p e with
      | true => rw [List.find?_cons_of_pos _ hp, List.find?_cons_of_pos _ hp]
      | false =>
        rw [List.find?_cons_of_neg _ (by simp [hp]), List.find?_cons_of_neg _ (by simp [hp])]
        exact ih
    | false =>
      have hp : p e = false := by
        cases hp : p e with
        | true => rw [h e hp] at hq; exact absurd hq (by simp)
        | false => rfl
      rw [List.filter_cons_of_neg (by simp [hq]), List.find?_cons_of_neg _ (by simp [hp])]
      exact ih

theorem get_del_ne (h : Header) (k k1 : String) (hk : k1 ≠ k) :
    Header.Get (Header.Del h k) k1 = Header.Get h k1 := by
  unfold Header.Get Header.Del
  rw [find_filter_of_imp]
  intro x hx
  have h1 : x.1 = k1 := by simpa using hx
  simp [h1, hk]

theorem get_set_ne (h : Header) (k v k1 : String) (hk : k1 ≠ k) :
    Header.Get (Header.Set h k v) k1 = Header.Get h k1 := by
  have h1 := get_del_ne h k k1 hk
  simp only [Header.Get, Header.Set] at h1 ⊢
  simp [List.find?_cons, Ne.symm hk, h1]

theorem get_set_same (h : Header) (k v : String) : Header.Get (Header.Set h k v) k = some v := by
  simp [Header.Get, Header.Set, List.find?_cons]

theorem keeps_WriteHeader (w : ResponseWriter) (c : Int) (hw : keepsCacheControl w) :
    keepsCacheControl (w.WriteHeader c) := by
  unfold ResponseWriter.WriteHeader
  cases hwr : w.wrote with
  | some x => simpa using hw
  | none =>
    refine ⟨hw.1, ?_⟩
    intro c1 h1 he
    simp at he
    rw [← he.2]
    exact hw.1

theorem keeps_Write (w : ResponseWriter) (d : GoString) (hw : keepsCacheControl w) :
    keepsCacheControl (w.Write d) := by
  have h := keeps_WriteHeader w 200 hw
  exact ⟨h.1, h.2⟩

theorem keeps_httpError (w : ResponseWriter) (e : GoString) (c : Int)
    (hw : keepsCacheControl w) : keepsCacheControl (httpError w e c) := by
  unfold httpError
  apply keeps_Write
  apply keeps_WriteHeader
  refine ⟨?_, hw.2⟩
  show hasCacheControl _
  unfold hasCacheControl
  rw [get_set_ne _ _ _ _ (by decide), get_set_ne _ _ _ _ (by decide),
    get_del_ne _ _ _ (by decide)]
  exact hw.1

theorem keeps_ioCopy (w : ResponseWriter) (rc : EntryStream) (hw : keepsCacheControl w) :
    keepsCacheControl (ioCopy w rc).1 := by
  unfold ioCopy
  by_cases h : rc.data = []
  · simpa [h] using hw
  · simpa [h] using keeps_Write w rc.data hw

theorem keeps_finish (w : ResponseWriter) (hw : keepsCacheControl w) :
    hasCacheControl (finish w).header := by
  unfold finish
  cases hwr : w.wrote with
  | some x =>
    obtain ⟨c, h⟩ := x
    exact hw.2 c h hwr
  | none => exact hw.1

theorem keeps_getImageBody (world : World) (w : ResponseWriter) (zip : ReadCloser) (i : Int)
    (hw : keepsCacheControl w) : keepsCacheControl (getImageBody world w zip i).w := by
  unfold getImageBody
  split
  · exact keeps_httpError _ _ _ hw
  · split
    · exact hw
    · split
      · exact keeps_httpError _ _ _ hw
      · rename_i rc _
        have hc := keeps_ioCopy w rc hw
        split
        · rename_i w1 err heq
          rw [heq] at hc
          exact keeps_httpError _ _ _ hc
        · rename_i w1 heq
          rw [heq] at hc
          exact hc

theorem keeps_getImage (world : World) (s : state) (r : Request) :
    keepsCacheControl (getImage world s ResponseWriter.fresh r).w := by
  have h0 : keepsCacheControl
      { ResponseWriter.fresh with
        header := Header.Set ResponseWriter.fresh.header "Cache-Control" "max-age=84600, public" } := by
    refine ⟨get_set_same _ _ _, ?_⟩
    intro c h he
    simp [ResponseWriter.fresh] at he
  unfold getImage
  simp only
  split
  · exact keeps_httpError _ _ _ h0
  · split
    · exact keeps_httpError _ _ _ h0
    · split
      · exact keeps_httpError _ _ _ h0
      · exact keeps_getImageBody _ _ _ _ h0

theorem status_httpError (w : ResponseWriter) (e : GoString) (c : Int) (hw : w.wrote = none) :
    (finish (httpError w e c)).status = c := by
  simp [httpError, ResponseWriter.WriteHeader, ResponseWriter.Write, finish, hw]

theorem index_of_range {α : Type} (xs : List α) (i : Int) (h0 : 0 ≤ i)
    (hn : i < (xs.length : Int)) : ∃ x, index xs i = some x ∧ xs.get? i.toNat = some x := by
  have h1 : i.toNat < xs.length := by omega
  refine ⟨xs.get ⟨i.toNat, h1⟩, ?_, ?_⟩
  · unfold index
    rw [if_neg (by omega)]
    exact List.get?_eq_get h1
  · exact List.get?_eq_get h1

/-- Inside `getImageBody` the status is 404 exactly for an index out of range,
the run does not panic, and an index in range reaches `zip.File[i].Open()`. -/
theorem getImageBody_spec (world : World) (w : ResponseWriter) (zip : ReadCloser) (i : Int)
    (hw : w.wrote = none) :
    ((finish (getImageBody world w zip i).w).status = 404 ↔
      (i < 0 ∨ i ≥ (zip.File.length : Int))) ∧
    (getImageBody world w zip i).panicked = false ∧
    (0 ≤ i ∧ i < (zip.File.length : Int) →
      ∃ zf, index zip.File i = some zf ∧ zip.File.get? i.toNat = some zf ∧
        Event.fileOpen i zf.Open.isOk ∈ (getImageBody world w zip i).log) := by
  unfold getImageBody
  by_cases hb : i ≥ (zip.File.length : Int) ∨ i < 0
  · rw [if_pos hb]
    refine ⟨?_, rfl, ?_⟩
    · rw [status_httpError _ _ _ hw]
      constructor
      · intro _; omega
      · intro _; rfl
    · intro h; omega
  · rw [if_neg hb]
    obtain ⟨zf, hz, hg⟩ := index_of_range zip.File i (by omega) (by omega)
    rw [hz]
    have hnot : ¬ (i < 0 ∨ i ≥ (zip.File.length : Int)) := by omega
    cases ho : zf.Open with
    | error err =>
      simp only [ho]
      refine ⟨?_, ?_, ?_⟩
      · simp [status_httpError _ _ _ hw, hnot]
      · trivial
      · intro _
        refine ⟨zf, rfl, hg, ?_⟩
        simp [ho, Except.isOk, Except.toBool]
    | ok rc =>
      simp only [ho]
      refine ⟨?_, ?_, ?_⟩
      · cases he : rc.err <;> by_cases hd : rc.data = [] <;>
          simp [ioCopy, he, hd, finish, httpError, ResponseWriter.Write,
            ResponseWriter.WriteHeader, hw, hnot]
      · cases he : rc.err <;> by_cases hd : rc.data = [] <;> simp [ioCopy, he, hd]
      · intro _
        refine ⟨zf, rfl, hg, ?_⟩
        cases he : rc.err <;> by_cases hd : rc.data = [] <;>
          simp [ioCopy, he, hd, ho, Except.isOk, Except.toBool]

theorem EncodeToString_injective (p q : GoString) (h : EncodeToString p = EncodeToString q) :
    p = q := by
  have hp := decodeLoop_encode p
  have hq := decodeLoop_encode q
  rw [h, hq] at hp
  exact (Except.ok.inj hp).symm

theorem foldl_names (l : List ZipFile) (acc : List GoString) :
    l.foldl (fun c zf => c ++ [zf.Name]) acc = acc ++ l.map ZipFile.Name := by
  induction l generalizing acc with
  | nil => simp
  | cons a t ih => simp [List.foldl_cons, ih]

theorem newFile_Contents (info : FileInfo) (zip : ReadCloser) :
    (newFile info zip).Contents = zip.File.map ZipFile.Name := by
  simp [newFile, foldl_names]

/-- The run of `getImage` once the page parsed, the identifier decoded and the
archive opened: the body runs between the open and the deferred close. -/
theorem getImage_opened (world : World) (s : state) (r : Request) (i : Int) (dec : GoString)
    (zip : ReadCloser) (hi : Atoi r.page = .ok i) (hd : DecodeString r.file = .ok dec)
    (ho : world.OpenReader dec = .ok zip) :
    getImage world s ResponseWriter.fresh r =
      { w := (getImageBody world
            { header := [("Cache-Control", "max-age=84600, public")], wrote := none, body := [] }
            zip i).w,
        log := .OpenReader dec true ::
          ((getImageBody world
            { header := [("Cache-Control", "max-age=84600, public")], wrote := none, body := [] }
            zip i).log ++ [.zipClose dec]),
        panicked := (getImageBody world
            { header := [("Cache-Control", "max-age=84600, public")], wrote := none, body := [] }
            zip i).panicked } := by
  simp only [getImage, hi, hd, ho]
  rfl

theorem getImage_no_panic (world : World) (s : state) (r : Request) :
    (getImage world s ResponseWriter.fresh r).panicked = false := by
  cases hi : Atoi r.page with
  | error e => simp [getImage, hi]
  | ok i =>
    cases hd : DecodeString r.file with
    | error e => simp [getImage, hi, hd]
    | ok dec =>
      cases ho : world.OpenReader dec with
      | error e => simp [getImage, hi, hd, ho]
      | ok zip =>
        rw [getImage_opened world s r i dec zip hi hd ho]
        exact (getImageBody_spec world _ zip i rfl).2.1

theorem getImage_ignores_state (world : World) (s t : state) (w : ResponseWriter) (r : Request) :
    getImage world s w r = getImage world t w r := rfl

/-! ## The catalog map -/

theorem mapGet_mapSet_same (m : FileMap) (k : GoString) (v : file) :
    mapGet (mapSet m k v) k = some v := by
  simp [mapGet, mapSet, List.find?_cons]

theorem mapGet_mapSet_ne (m : FileMap) (k k1 : GoString) (v : file) (hk : k1 ≠ k) :
    mapGet (mapSet m k v) k1 = mapGet m k1 := by
  unfold mapGet mapSet
  rw [List.find?_cons_of_neg _ (by simpa using Ne.symm hk), find_filter_of_imp]
  intro x hx
  have h1 : x.1 = k1 := by simpa using hx
  simp [h1, hk]

theorem keys_mapSet_new (m : FileMap) (k : GoString) (v : file) (hk : k ∉ keys m) :
    keys (mapSet m k v) = k :: keys m := by
  unfold mapSet keys
  rw [List.map_cons, List.filter_eq_self.mpr]
  intro e he
  have h1 : e.1 ≠ k := by
    intro h2
    apply hk
    rw [← h2]
    exact List.mem_map_of_mem Prod.fst he
  simpa using h1

/-! ## The walk -/

theorem walkFn_skip (world : World) (files : FileMap) (v : Visit)
    (h : Ext v.path ≠ str ".zip") : walkFn world files v = (files, .nil) := by
  simp [walkFn, h]

theorem walkFn_open (world : World) (files : FileMap) (v : Visit) (info : FileInfo)
    (zip : ReadCloser) (h : Ext v.path = str ".zip") (hinfo : v.info = some info)
    (ho : world.OpenReader v.path = .ok zip) :
    walkFn world files v = (mapSet files (EncodeToString v.path) (newFile info zip), .nil) := by
  simp [walkFn, h, hinfo, ho]

theorem walkFn_error (world : World) (files : FileMap) (v : Visit) (info : FileInfo)
    (e : GoError) (h : Ext v.path = str ".zip") (hinfo : v.info = some info)
    (ho : world.OpenReader v.path = .error e) : walkFn world files v = (files, .err e) := by
  simp [walkFn, h, hinfo, ho]

theorem Walk_cons_nil (world : World) (v : Visit) (rest : List Visit) (files files1 : FileMap)
    (h : walkFn world files v = (files1, .nil)) :
    Walk world (v :: rest) files =
      ((Walk world rest files1).1, v.path :: (Walk world rest files1).2.1,
        (Walk world rest files1).2.2) := by
  simp [Walk, h]

theorem Walk_cons_stop (world : World) (v : Visit) (rest : List Visit) (files files1 : FileMap)
    (r : WalkResult) (h : walkFn world files v = (files1, r)) (hr : r ≠ .nil) :
    Walk world (v :: rest) files = (files1, [v.path], r) := by
  cases r with
  | nil => exact absurd rfl hr
  | err e => simp [Walk, h]
  | panic => simp [Walk, h]

/-- A walk that went through `pre` without stopping continues on the rest with
the map built so far. -/
theorem Walk_append (world : World) (pre rest : List Visit) (files : FileMap)
    (h : (Walk world pre files).2.2 = .nil) :
    Walk world (pre ++ rest) files =
      ((Walk world rest (Walk world pre files).1).1,
        pre.map Visit.path ++ (Walk world rest (Walk world pre files).1).2.1,
        (Walk world rest (Walk world pre files).1).2.2) := by
  induction pre generalizing files with
  | nil => simp [Walk]
  | cons v t ih =>
    rcases hfn : walkFn world files v with ⟨fa, ra⟩
    by_cases hra : ra = .nil
    · subst hra
      rw [Walk_cons_nil world v t files fa hfn] at h
      rw [List.cons_append, Walk_cons_nil world v (t ++ rest) files fa hfn,
        Walk_cons_nil world v t files fa hfn, ih fa h]
      simp
    · rw [Walk_cons_stop world v t files fa ra hfn hra] at h
      exact absurd h hra

theorem opens_elim (world : World) (v : Visit) (h : opens world v) :
    ∃ info zip, v.info = some info ∧ world.OpenReader v.path = .ok zip := by
  obtain ⟨h1, h2⟩ := h
  obtain ⟨info, hinfo⟩ := Option.isSome_iff_exists.mp h1
  cases ho : world.OpenReader v.path with
  | error e => simp [ho, Except.isOk, Except.toBool] at h2
  | ok zip => exact ⟨info, zip, hinfo, rfl⟩

/-- A walk in which every archive path opens runs to the end; the keys of the
map are the identifiers of the archive paths, latest first. -/
theorem Walk_all_open (world : World) (visits : List Visit) (files : FileMap)
    (hnd : (visits.map Visit.path).Nodup)
    (hok : ∀ v ∈ visits, isZip v = true → opens world v)
    (hnew : ∀ v ∈ visits, isZip v = true → identifier v ∉ keys files) :
    (Walk world visits files).2.1 = visits.map Visit.path ∧
    (Walk world visits files).2.2 = .nil ∧
    keys (Walk world visits files).1 =
      ((visits.filter isZip).map identifier).reverse ++ keys files := by
  induction visits generalizing files with
  | nil => simp [Walk]
  | cons v t ih =>
    rw [List.map_cons, List.nodup_cons] at hnd
    by_cases hz : isZip v = true
    · obtain ⟨info, zip, hinfo1, hopen⟩ := opens_elim world v (hok v (List.mem_cons_self _ _) hz)
      have hext : Ext v.path = str ".zip" := by simpa [isZip] using hz
      have hfn := walkFn_open world files v info zip hext hinfo1 hopen
      have hk : identifier v ∉ keys files := hnew v (List.mem_cons_self _ _) hz
      have hkeys := keys_mapSet_new files (EncodeToString v.path) (newFile info zip) hk
      have hnew1 : ∀ u ∈ t, isZip u = true →
          identifier u ∉ keys (mapSet files (EncodeToString v.path) (newFile info zip)) := by
        intro u hu huz
        rw [hkeys, List.mem_cons, not_or]
        refine ⟨?_, hnew u (List.mem_cons_of_mem _ hu) huz⟩
        intro heq
        have hp : u.path = v.path := EncodeToString_injective _ _ heq
        apply hnd.1
        rw [← hp]
        exact List.mem_map_of_mem Visit.path hu
      obtain ⟨h1, h2, h3⟩ := ih _ hnd.2 (fun u hu => hok u (List.mem_cons_of_mem _ hu)) hnew1
      rw [Walk_cons_nil world v t files _ hfn]
      refine ⟨by simp [h1], h2, ?_⟩
      simp only [h3, hkeys, List.filter_cons_of_pos hz, List.map_cons, List.reverse_cons,
        List.append_assoc, List.singleton_append]
      rfl
    · have hext : Ext v.path ≠ str ".zip" := by simpa [isZip] using hz
      have hfn := walkFn_skip world files v hext
      obtain ⟨h1, h2, h3⟩ := ih files hnd.2 (fun u hu => hok u (List.mem_cons_of_mem _ hu))
        (fun u hu => hnew u (List.mem_cons_of_mem _ hu))
      rw [Walk_cons_nil world v t files _ hfn]
      refine ⟨by simp [h1], h2, ?_⟩
      simp only [h3, List.filter_cons_of_neg hz]

theorem nodup_identifiers (visits : List Visit) (hnd : (visits.map Visit.path).Nodup) :
    (((visits.filter isZip).map identifier).reverse).Nodup := by
  rw [List.nodup_reverse]
  have h1 : ((visits.filter isZip).map Visit.path).Nodup :=
    List.Nodup.sublist (List.Sublist.map _ (List.filter_sublist _)) hnd
  have h2 : (visits.filter isZip).map identifier =
      ((visits.filter isZip).map Visit.path).map EncodeToString := by
    simp [identifier]
  rw [h2]
  exact List.Nodup.map (fun a b h => EncodeToString_injective a b h) h1

/-- One call of the walk function keeps the entry of an archive path: either
the key is not touched, or the entry is rebuilt from the same archive. -/
theorem walkFn_keeps_entry (world : World) (files : FileMap) (v : Visit) (p : GoString)
    (zip : ReadCloser) (hopen : world.OpenReader p = .ok zip) (h : hasEntry files p zip) :
    hasEntry (walkFn world files v).1 p zip := by
  by_cases hext : Ext v.path = str ".zip"
  · cases hinfo : v.info with
    | none => simpa [walkFn, hext, hinfo] using h
    | some info =>
      cases ho : world.OpenReader v.path with
      | error e => simpa [walkFn, hext, hinfo, ho] using h
      | ok zip1 =>
        rw [walkFn_open world files v info zip1 hext hinfo ho]
        by_cases hk : EncodeToString p = EncodeToString v.path
        · have hp : p = v.path := EncodeToString_injective _ _ hk
          have hz : zip1 = zip := by
            rw [hp, ho] at hopen
            exact Except.ok.inj hopen
          refine ⟨newFile info zip1, ?_, ?_, ?_⟩
          · show mapGet _ (EncodeToString p) = _
            rw [hk]
            exact mapGet_mapSet_same _ _ _
          · rw [newFile_Contents, hz]
          · simp [newFile, hz]
        · obtain ⟨f, hf, hc, hl⟩ := h
          refine ⟨f, ?_, hc, hl⟩
          show mapGet _ (EncodeToString p) = _
          rw [mapGet_mapSet_ne _ _ _ _ hk]
          exact hf
  · rw [walkFn_skip world files v hext]
    exact h

theorem Walk_keeps_entry (world : World) (visits : List Visit) (files : FileMap) (p : GoString)
    (zip : ReadCloser) (hopen : world.OpenReader p = .ok zip) (h : hasEntry files p zip) :
    hasEntry (Walk world visits files).1 p zip := by
  induction visits generalizing files with
  | nil => simpa [Walk] using h
  | cons v t ih =>
    have hk := walkFn_keeps_entry world files v p zip hopen h
    rcases hfn : walkFn world files v with ⟨fa, ra⟩
    rw [hfn] at hk
    by_cases hra : ra = .nil
    · subst hra
      rw [Walk_cons_nil world v t files fa hfn]
      exact ih fa hk
    · rw [Walk_cons_stop world v t files fa ra hfn hra]
      exact hk

/-- An index in range whose entry does not open: status 500. -/
theorem serveImage_entry_open_error (world : World) (s : state) (r : Request) (i : Int)
    (dec : GoString) (zip : ReadCloser) (zf : ZipFile) (e : GoError)
    (hi : Atoi r.page = .ok i) (hd : DecodeString r.file = .ok dec)
    (ho : world.OpenReader dec = .ok zip) (h0 : 0 ≤ i)
    (hz : zip.File.get? i.toNat = some zf) (hopen : zf.Open = .error e) :
    (serveImage world s r).status = 500 := by
  have hlt : i.toNat < zip.File.length := by
    rcases Nat.lt_or_ge i.toNat zip.File.length with h | h
    · exact h
    · rw [List.get?_eq_none.mpr h] at hz
      cases hz
  have hidx : index zip.File i = some zf := by
    unfold index
    rw [if_neg (by omega)]
    exact hz
  have hb : ¬ (i ≥ (zip.File.length : Int) ∨ i < 0) := by omega
  unfold serveImage
  rw [getImage_opened world s r i dec zip hi hd ho]
  unfold getImageBody
  rw [if_neg hb, hidx]
  simp only [hopen]
  exact status_httpError _ _ _ rfl

/-- An index in range whose entry opens and copies without error: status 200
and the body is the bytes of the entry. -/
theorem serveImage_entry_served (world : World) (s : state) (r : Request) (i : Int)
    (dec : GoString) (zip : ReadCloser) (zf : ZipFile) (rc : EntryStream)
    (hi : Atoi r.page = .ok i) (hd : DecodeString r.file = .ok dec)
    (ho : world.OpenReader dec = .ok zip) (h0 : 0 ≤ i)
    (hz : zip.File.get? i.toNat = some zf) (hopen : zf.Open = .ok rc)
    (hcopy : rc.err = none) :
    (serveImage world s r).status = 200 ∧ (serveImage world s r).body = rc.data := by
  have hlt : i.toNat < zip.File.length := by
    rcases Nat.lt_or_ge i.toNat zip.File.length with h | h
    · exact h
    · rw [List.get?_eq_none.mpr h] at hz
      cases hz
  have hidx : index zip.File i = some zf := by
    unfold index
    rw [if_neg (by omega)]
    exact hz
  have hb : ¬ (i ≥ (zip.File.length : Int) ∨ i < 0) := by omega
  unfold serveImage
  rw [getImage_opened world s r i dec zip hi hd ho]
  unfold getImageBody
  rw [if_neg hb, hidx]
  simp only [hopen]
  by_cases hdat : rc.data = [] <;>
    simp [ioCopy, hcopy, hdat, finish, ResponseWriter.Write, ResponseWriter.WriteHeader]

/-! ## The claims -/

/-- C1: the identifier codec round-trips. For every path `p` (any byte
sequence), decoding the identifier that the indexer computes for `p` succeeds
and yields exactly `p`; hence two paths have the same identifier only if they
are the same path. -/
theorem codec_round_trip (p : GoString) :
    DecodeString (EncodeToString p) = .ok p ∧
    ∀ q : GoString, EncodeToString p = EncodeToString q ↔ p = q := by
  refine ⟨decodeLoop_encode p, ?_⟩
  intro q
  exact ⟨EncodeToString_injective p q, fun h => by rw [h]⟩

/-- C2: index validity in `getImage`. When the page parses as the integer `i`
and the identifier decodes to a path that opens as an archive with `n` entries,
the response is 404 exactly when `i < 0` or `i >= n`; the handler never panics,
and for `0 <= i < n` the slice access `zip.File[i]` is in range and the entry
is opened. -/
theorem getImage_index_validity (world : World) (s : state) (r : Request) (i : Int)
    (dec : GoString) (zip : ReadCloser) (hi : Atoi r.page = .ok i)
    (hd : DecodeString r.file = .ok dec) (ho : world.OpenReader dec = .ok zip) :
    ((serveImage world s r).status = 404 ↔ (i < 0 ∨ i ≥ (zip.File.length : Int))) ∧
    (getImage world s ResponseWriter.fresh r).panicked = false ∧
    (0 ≤ i ∧ i < (zip.File.length : Int) →
      ∃ zf, index zip.File i = some zf ∧ zip.File.get? i.toNat = some zf ∧
        Event.fileOpen i zf.Open.isOk ∈ (getImage world s ResponseWriter.fresh r).log) := by
  have hb := getImageBody_spec world
    { header := [("Cache-Control", "max-age=84600, public")], wrote := none, body := [] }
    zip i rfl
  unfold serveImage
  rw [getImage_opened world s r i dec zip hi hd ho]
  refine ⟨hb.1, hb.2.1, ?_⟩
  intro hr
  obtain ⟨zf, h1, h2, h3⟩ := hb.2.2 hr
  refine ⟨zf, h1, h2, ?_⟩
  simp only [List.mem_cons, List.mem_append]
  exact Or.inr (Or.inl h3)

theorem getImage_index_validity_witness :
    (Atoi (pageRequest "data/vol1.zip" "3").page = .ok 3 ∧
      DecodeString (pageRequest "data/vol1.zip" "3").file = .ok (str "data/vol1.zip") ∧
      demo.OpenReader (str "data/vol1.zip") = .ok vol1) ∧
    (((serveImage demo demoState (pageRequest "data/vol1.zip" "3")).status = 404 ↔
        ((3 : Int) < 0 ∨ (3 : Int) ≥ (vol1.File.length : Int))) ∧
      (getImage demo demoState ResponseWriter.fresh
        (pageRequest "data/vol1.zip" "3")).panicked = false ∧
      (0 ≤ (3 : Int) ∧ (3 : Int) < (vol1.File.length : Int) →
        ∃ zf, index vol1.File 3 = some zf ∧ vol1.File.get? (3 : Int).toNat = some zf ∧
          Event.fileOpen 3 zf.Open.isOk ∈
            (getImage demo demoState ResponseWriter.fresh
              (pageRequest "data/vol1.zip" "3")).log)) :=
  ⟨⟨by decide, by decide, by decide⟩,
    getImage_index_validity demo demoState (pageRequest "data/vol1.zip" "3") 3
      (str "data/vol1.zip") vol1 (by decide) (by decide) (by decide)⟩

/-- C3: successful page retrieval. For a well-formed identifier that decodes
to an archive with `n` entries and an integer index `0 <= i < n`, if the entry
opens and the copy succeeds, the response body is exactly the bytes of entry
`i` in central-directory order (the entry whose name the indexer records at
position `i` of `Contents`), the status is 200 (no error status is written),
and the response carries `Cache-Control: max-age=84600, public`, where 84600
seconds are 23.5 hours. -/
theorem getImage_serves_page (world : World) (s : state) (r : Request) (i : Int)
    (dec : GoString) (zip : ReadCloser) (zf : ZipFile) (rc : EntryStream)
    (hi : Atoi r.page = .ok i) (hd : DecodeString r.file = .ok dec)
    (ho : world.OpenReader dec = .ok zip) (h0 : 0 ≤ i) (hn : i < (zip.File.length : Int))
    (hz : zip.File.get? i.toNat = some zf) (hopen : zf.Open = .ok rc)
    (hcopy : rc.err = none) :
    (serveImage world s r).body = rc.data ∧
    (serveImage world s r).status = 200 ∧
    (serveImage world s r).header.Get "Cache-Control" = some "max-age=84600, public" ∧
    (∀ info, (newFile info zip).Contents.get? i.toNat = some zf.Name) ∧
    (getImage world s ResponseWriter.fresh r).log =
      [.OpenReader dec true, .fileOpen i true, .rcClose i, .zipClose dec] ∧
    (getImage world s ResponseWriter.fresh r).panicked = false ∧
    2 * 84600 = 47 * 3600 := by
  have hidx : index zip.File i = some zf := by
    unfold index
    rw [if_neg (by omega)]
    exact hz
  have hb : ¬ (i ≥ (zip.File.length : Int) ∨ i < 0) := by omega
  have hbody : getImageBody world
      { header := [("Cache-Control", "max-age=84600, public")], wrote := none, body := [] }
      zip i =
      { w := (ioCopy
          { header := [("Cache-Control", "max-age=84600, public")], wrote := none, body := [] }
          rc).1,
        log := [.fileOpen i true, .rcClose i], panicked := false } := by
    unfold getImageBody
    rw [if_neg hb, hidx]
    simp only [hopen]
    simp [ioCopy, hcopy]
  unfold serveImage
  rw [getImage_opened world s r i dec zip hi hd ho, hbody]
  refine ⟨?_, ?_, ?_, ?_, ?_, rfl, by norm_num⟩
  · by_cases hdat : rc.data = [] <;>
      simp [ioCopy, hdat, finish, ResponseWriter.Write, ResponseWriter.WriteHeader]
  · by_cases hdat : rc.data = [] <;>
      simp [ioCopy, hdat, finish, ResponseWriter.Write, ResponseWriter.WriteHeader]
  · by_cases hdat : rc.data = [] <;>
      simp [ioCopy, hdat, finish, ResponseWriter.Write, ResponseWriter.WriteHeader,
        Header.Get, List.find?_cons]
  · intro info
    rw [newFile_Contents]
    simp [List.get?_eq_getElem?] at hz ⊢
    exact ⟨zf, hz, rfl⟩
  · simp

theorem getImage_serves_page_witness :
    (Atoi (pageRequest "data/vol1.zip" "0").page = .ok 0 ∧
      DecodeString (pageRequest "data/vol1.zip" "0").file = .ok (str "data/vol1.zip") ∧
      demo.OpenReader (str "data/vol1.zip") = .ok vol1) ∧
    (serveImage demo demoState (pageRequest "data/vol1.zip" "0")).body = [1, 2, 3] ∧
    (serveImage demo demoState (pageRequest "data/vol1.zip" "0")).status = 200 :=
  have h := getImage_serves_page demo demoState (pageRequest "data/vol1.zip" "0") 0
    (str "data/vol1.zip") vol1
    { Name := str "p0.jpg", Open := .ok { data := [1, 2, 3], err := none } }
    { data := [1, 2, 3], err := none }
    (by decide) (by decide) (by decide) (by decide) (by decide) (by decide) rfl rfl
  ⟨⟨by decide, by decide, by decide⟩, h.1, h.2.1⟩

/-- C4: malformed inputs. When the page variable is not parseable by
`strconv.Atoi`, or it is an integer but the identifier is not well-formed
standard base64, the response status is 500 and no archive is opened (the
handler performs no archive operation at all). -/
theorem getImage_malformed (world : World) (s : state) (r : Request)
    (h : (∃ e, Atoi r.page = .error e) ∨
      (∃ i e, Atoi r.page = .ok i ∧ DecodeString r.file = .error e)) :
    (serveImage world s r).status = 500 ∧
    (getImage world s ResponseWriter.fresh r).log = [] := by
  rcases h with ⟨e, he⟩ | ⟨i, e, hi, he⟩
  · simp only [serveImage, getImage, he]
    exact ⟨status_httpError _ _ _ rfl, trivial⟩
  · simp only [serveImage, getImage, hi, he]
    exact ⟨status_httpError _ _ _ rfl, trivial⟩

theorem getImage_malformed_witness :
    ((serveImage demo demoState (pageRequest "data/vol1.zip" "abc")).status = 500 ∧
      (getImage demo demoState ResponseWriter.fresh
        (pageRequest "data/vol1.zip" "abc")).log = []) ∧
    ((serveImage demo demoState { file := str "@@@", page := str "0" }).status = 500 ∧
      (getImage demo demoState ResponseWriter.fresh
        { file := str "@@@", page := str "0" }).log = []) :=
  ⟨getImage_malformed demo demoState (pageRequest "data/vol1.zip" "abc")
      (Or.inl ⟨.ErrSyntax, by decide⟩),
    getImage_malformed demo demoState { file := str "@@@", page := str "0" }
      (Or.inr ⟨0, .corrupt, by decide, by decide⟩)⟩

/-- C10: the cache directive is on every response. Whatever the request and
whatever the outcome, the header of the response of `getImage` contains
`Cache-Control: max-age=84600, public`, because the handler sets it before
any validation and `http.Error` does not remove it. -/
theorem cache_control_on_every_response (world : World) (s : state) (r : Request) :
    (serveImage world s r).header.Get "Cache-Control" = some "max-age=84600, public" :=
  keeps_finish _ (keeps_getImage world s r)

/-- C5, as stated, fails: after `main` indexed the root `data`, an identifier
that is not a key of the catalog gets a server error (its path does not open)
or a successful page (its path is an archive outside the root), not a 4xx
response. -/
theorem unknown_identifier_counterexample :
    (demoState.files = some (demoState.files.getD []) ∧
      (pageRequest "nowhere.zip" "0").file ∉ keys (demoState.files.getD []) ∧
      (serveImage demo demoState (pageRequest "nowhere.zip" "0")).status = 500) ∧
    ((pageRequest "other/secret.zip" "0").file ∉ keys (demoState.files.getD []) ∧
      (serveImage demo demoState (pageRequest "other/secret.zip" "0")).status = 200 ∧
      (serveImage demo demoState (pageRequest "other/secret.zip" "0")).body = [9]) := by
  decide

/-- C5, amended: `getImage` does not consult the catalog. For an identifier
that is not a key of `s.files` the handler runs as for any other identifier
and never panics: the status is 500 when the page is not an integer, when the
identifier is not well-formed base64, and when the decoded path does not open
as an archive; when the path opens as an archive with `n` entries the status
is 404 exactly for an index `i < 0` or `i >= n`; for an index in range the
status is 500 when the entry does not open, and when the entry opens and the
copy succeeds the status is 200 and the body is the bytes of the entry. -/
theorem getImage_unknown_identifier (world : World) (s : state) (files : FileMap)
    (r : Request) (_hs : s.files = some files) (_hk : r.file ∉ keys files) :
    getImage world s ResponseWriter.fresh r =
      getImage world { files := none } ResponseWriter.fresh r ∧
    (getImage world s ResponseWriter.fresh r).panicked = false ∧
    ((∃ e, Atoi r.page = .error e) ∨ (∃ e, DecodeString r.file = .error e) →
      (serveImage world s r).status = 500) ∧
    (∀ i dec, Atoi r.page = .ok i → DecodeString r.file = .ok dec →
      (∀ e, world.OpenReader dec = .error e → (serveImage world s r).status = 500) ∧
      (∀ zip, world.OpenReader dec = .ok zip →
        ((serveImage world s r).status = 404 ↔ (i < 0 ∨ i ≥ (zip.File.length : Int))) ∧
        (∀ zf, 0 ≤ i → zip.File.get? i.toNat = some zf →
          (∀ e, zf.Open = .error e → (serveImage world s r).status = 500) ∧
          (∀ rc, zf.Open = .ok rc → rc.err = none →
            (serveImage world s r).status = 200 ∧
            (serveImage world s r).body = rc.data)))) := by
  refine ⟨rfl, getImage_no_panic world s r, ?_, ?_⟩
  · intro h
    cases hi : Atoi r.page with
    | error e =>
      simp only [serveImage, getImage, hi]
      exact status_httpError _ _ _ rfl
    | ok i =>
      rcases h with ⟨e, he⟩ | ⟨e, he⟩
      · rw [hi] at he
        cases he
      · simp only [serveImage, getImage, hi, he]
        exact status_httpError _ _ _ rfl
  · intro i dec hi hd
    constructor
    · intro e he
      simp only [serveImage, getImage, hi, hd, he]
      exact status_httpError _ _ _ rfl
    · intro zip ho
      refine ⟨?_, ?_⟩
      · have hb := getImageBody_spec world
          { header := [("Cache-Control", "max-age=84600, public")], wrote := none, body := [] }
          zip i rfl
        unfold serveImage
        rw [getImage_opened world s r i dec zip hi hd ho]
        exact hb.1
      · intro zf h0 hz
        exact ⟨fun e hopen =>
            serveImage_entry_open_error world s r i dec zip zf e hi hd ho h0 hz hopen,
          fun rc hopen hcopy =>
            serveImage_entry_served world s r i dec zip zf rc hi hd ho h0 hz hopen hcopy⟩

theorem getImage_unknown_identifier_witness :
    (demoState.files = some (demoState.files.getD []) ∧
      (pageRequest "other/secret.zip" "0").file ∉ keys (demoState.files.getD [])) ∧
    (getImage demo demoState ResponseWriter.fresh
      (pageRequest "other/secret.zip" "0")).panicked = false ∧
    (serveImage demo demoState (pageRequest "other/secret.zip" "0")).status = 200 ∧
    (serveImage demo demoState (pageRequest "other/secret.zip" "0")).body = [9] :=
  ⟨⟨by decide, by decide⟩,
    (getImage_unknown_identifier demo demoState (demoState.files.getD [])
      (pageRequest "other/secret.zip" "0") (by decide) (by decide)).2.1,
    ((((getImage_unknown_identifier demo demoState (demoState.files.getD [])
      (pageRequest "other/secret.zip" "0") (by decide) (by decide)).2.2.2
        0 (str "other/secret.zip") (by decide) (by decide)).2 secret (by decide)).2
        { Name := str "s.png", Open := .ok { data := [9], err := none } }
        (by decide) (by decide)).2 { data := [9], err := none } rfl rfl⟩

/-- C6 at its failing input: when `io.Copy` fails, `getImage` returns through
line 71 with the archive closed by the deferred call but the entry stream
never closed; on the successful path the stream is closed. -/
theorem getImage_copy_failure_leaves_stream_open :
    (getImage demo demoState ResponseWriter.fresh (pageRequest "data/vol1.zip" "2")).log =
      [.OpenReader (str "data/vol1.zip") true, .fileOpen 2 true,
        .zipClose (str "data/vol1.zip")] ∧
    Event.rcClose 2 ∉
      (getImage demo demoState ResponseWriter.fresh (pageRequest "data/vol1.zip" "2")).log ∧
    (getImage demo demoState ResponseWriter.fresh (pageRequest "data/vol1.zip" "0")).log =
      [.OpenReader (str "data/vol1.zip") true, .fileOpen 0 true, .rcClose 0,
        .zipClose (str "data/vol1.zip")] := by
  decide

/-- C7: catalog completeness. For a walk over pairwise distinct paths in which
every path with extension `.zip` opens (there are `k` of them) and the other
`m` paths have any other extension, `main` panics with nothing, every path is
visited, and the catalog assigned to `s.files` has exactly `k` entries, keyed
by the `k` pairwise distinct base64 identifiers of the archive paths; the
other paths add no entry and cause no error. -/
theorem main_catalog_complete (world : World) (root : GoString)
    (hnd : ((world.walk root).map Visit.path).Nodup)
    (hok : ∀ v ∈ world.walk root, isZip v = true → opens world v) :
    ∃ files, (main world root).s.files = some files ∧
      (main world root).panicValue = none ∧
      (main world root).visited = (world.walk root).map Visit.path ∧
      keys files = (((world.walk root).filter isZip).map identifier).reverse ∧
      (keys files).Nodup ∧
      files.length = ((world.walk root).filter isZip).length ∧
      files.length + ((world.walk root).filter (fun v => !isZip v)).length =
        (world.walk root).length := by
  obtain ⟨h1, h2, h3⟩ := Walk_all_open world (world.walk root) [] hnd hok
    (fun v _ _ => by simp [keys])
  rcases hW : Walk world (world.walk root) [] with ⟨f1, vis, res⟩
  rw [hW] at h1 h2 h3
  simp only at h1 h2 h3
  subst h2
  have hkeys : keys f1 = (((world.walk root).filter isZip).map identifier).reverse := by
    simpa [keys] using h3
  have hlen : f1.length = ((world.walk root).filter isZip).length := by
    have := congrArg List.length hkeys
    simpa [keys] using this
  refine ⟨f1, ?_, ?_, ?_, hkeys, ?_, hlen, ?_⟩
  · simp [main, hW]
  · simp [main, hW]
  · simp [main, hW, h1]
  · rw [hkeys]
    exact nodup_identifiers _ hnd
  · rw [hlen]
    have := List.length_eq_length_filter_add (l := world.walk root) isZip
    omega

theorem main_catalog_complete_witness :
    (((demo.walk (str "data")).map Visit.path).Nodup ∧
      (∀ v ∈ demo.walk (str "data"), isZip v = true → opens demo v)) ∧
    ∃ files, (main demo (str "data")).s.files = some files ∧
      (main demo (str "data")).panicValue = none ∧
      (main demo (str "data")).visited = (demo.walk (str "data")).map Visit.path ∧
      keys files = (((demo.walk (str "data")).filter isZip).map identifier).reverse ∧
      (keys files).Nodup ∧
      files.length = ((demo.walk (str "data")).filter isZip).length ∧
      files.length + ((demo.walk (str "data")).filter (fun v => !isZip v)).length =
        (demo.walk (str "data")).length :=
  ⟨⟨by decide, by decide⟩, main_catalog_complete demo (str "data") (by decide) (by decide)⟩

/-- C8: shape of a catalog entry. When the walk reaches an archive path and
`zip.OpenReader` opens it with entries `e_0 .. e_(n-1)` in central-directory
order, the map holds under the identifier of the path, from that call to the
end of the walk, an entry whose `Contents` is the list of the names
`e_0.Name .. e_(n-1).Name` in that order (so its length is `n`) and whose
`Len` is `n - 1`, that is `len(Contents) - 1`. -/
theorem Walk_entry_shape (world : World) (pre post : List Visit) (v : Visit)
    (files : FileMap) (info : FileInfo) (zip : ReadCloser)
    (hpre : (Walk world pre files).2.2 = .nil) (hext : Ext v.path = str ".zip")
    (hinfo : v.info = some info) (hopen : world.OpenReader v.path = .ok zip) :
    ∃ f, mapGet (Walk world (pre ++ v :: post) files).1 (EncodeToString v.path) = some f ∧
      f.Contents = zip.File.map ZipFile.Name ∧
      f.Contents.length = zip.File.length ∧
      f.Len = (zip.File.length : Int) - 1 ∧
      f.Len = (f.Contents.length : Int) - 1 := by
  have hfn := walkFn_open world (Walk world pre files).1 v info zip hext hinfo hopen
  have h0 : hasEntry (mapSet (Walk world pre files).1 (EncodeToString v.path)
      (newFile info zip)) v.path zip :=
    ⟨newFile info zip, mapGet_mapSet_same _ _ _, newFile_Contents info zip, rfl⟩
  have h1 := Walk_keeps_entry world post _ v.path zip hopen h0
  rw [Walk_append world pre (v :: post) files hpre,
    Walk_cons_nil world v post _ _ hfn]
  obtain ⟨f, hf, hc, hl⟩ := h1
  refine ⟨f, hf, hc, ?_, hl, ?_⟩
  · rw [hc, List.length_map]
  · rw [hl, hc, List.length_map]

theorem Walk_entry_shape_witness :
    ((Walk demo [{ path := str "data", info := some { Name := str "data" } }] []).2.2 = .nil ∧
      Ext (str "data/empty.zip") = str ".zip" ∧
      demo.OpenReader (str "data/empty.zip") = .ok { File := [] }) ∧
    ∃ f, mapGet (Walk demo (demo.walk (str "data")) []).1
        (EncodeToString (str "data/empty.zip")) = some f ∧
      f.Contents = [] ∧ f.Contents.length = 0 ∧ f.Len = -1 ∧
      f.Len = (f.Contents.length : Int) - 1 :=
  ⟨⟨by decide, by decide, by decide⟩,
    Walk_entry_shape demo [{ path := str "data", info := some { Name := str "data" } }]
      [{ path := str "data/notes.txt", info := some { Name := str "notes.txt" } },
       { path := str "data/vol1.zip", info := some { Name := str "vol1.zip" } }]
      { path := str "data/empty.zip", info := some { Name := str "empty.zip" } }
      [] { Name := str "empty.zip" } { File := [] } (by decide) (by decide) rfl (by decide)⟩

/-- Fail-fast indexing for a path that Walk passes with a `FileInfo`: when
the walk reaches a path with extension `.zip` for which `zip.OpenReader` fails,
the walk function returns that error, the walk stops there without visiting
the later paths, `main` panics with the error, and `s.files` stays nil. -/
theorem main_fail_fast_with_info (world : World) (root : GoString) (pre post : List Visit) (v : Visit)
    (info : FileInfo) (e : GoError) (hw : world.walk root = pre ++ v :: post)
    (hpre : (Walk world pre []).2.2 = .nil) (hext : Ext v.path = str ".zip")
    (hinfo : v.info = some info) (herr : world.OpenReader v.path = .error e) :
    (∀ files, walkFn world files v = (files, .err e)) ∧
    (Walk world (world.walk root) []).2.2 = .err e ∧
    (main world root).visited = pre.map Visit.path ++ [v.path] ∧
    (main world root).panicValue = some e ∧
    (main world root).s.files = none := by
  have hfn : ∀ files, walkFn world files v = (files, .err e) :=
    fun files => walkFn_error world files v info e hext hinfo herr
  have hW : Walk world (world.walk root) [] =
      ((Walk world pre []).1, pre.map Visit.path ++ [v.path], .err e) := by
    rw [hw, Walk_append world pre (v :: post) [] hpre,
      Walk_cons_stop world v post _ _ (.err e) (hfn _) (by simp)]
  refine ⟨hfn, ?_, ?_, ?_, ?_⟩
  · rw [hW]
  · simp [main, hW]
  · simp [main, hW]
  · simp [main, hW]

theorem main_fail_fast_example :
    (demo.walk (str "data2") =
        [{ path := str "data2", info := some { Name := str "data2" } }] ++
          { path := str "data2/bad.zip", info := some { Name := str "bad.zip" } } ::
          [{ path := str "data2/vol2.zip", info := some { Name := str "vol2.zip" } }] ∧
      demo.OpenReader (str "data2/bad.zip") =
        .error (.os (str "open: no such file or directory"))) ∧
    (main demo (str "data2")).visited = [str "data2", str "data2/bad.zip"] ∧
    (main demo (str "data2")).panicValue =
      some (.os (str "open: no such file or directory")) ∧
    (main demo (str "data2")).s.files = none :=
  ⟨⟨by decide, by decide⟩,
    (main_fail_fast_with_info demo (str "data2")
      [{ path := str "data2", info := some { Name := str "data2" } }]
      [{ path := str "data2/vol2.zip", info := some { Name := str "vol2.zip" } }]
      { path := str "data2/bad.zip", info := some { Name := str "bad.zip" } }
      { Name := str "bad.zip" } (.os (str "open: no such file or directory"))
      (by decide) (by decide) (by decide) rfl (by decide)).2.2⟩

/-- C9 at its failing input: the root `missing.zip` does not exist, so Walk
calls the walk function on it with a nil `FileInfo`. The path has extension
`.zip` and `zip.OpenReader` would fail on it, but line 133 calls `info.Name()`
first: the walk function panics with a nil dereference instead of returning
the open error, and `main` ends in that panic rather than in `panic(err)`.
The walk stops and `s.files` stays nil all the same. -/
theorem main_nil_info_panics_before_open :
    demo.walk (str "missing.zip") = [{ path := str "missing.zip", info := none }] ∧
    Ext (str "missing.zip") = str ".zip" ∧
    demo.OpenReader (str "missing.zip") =
      .error (.os (str "open: no such file or directory")) ∧
    walkFn demo [] { path := str "missing.zip", info := none } = ([], .panic) ∧
    (Walk demo (demo.walk (str "missing.zip")) []).2.2 = .panic ∧
    (main demo (str "missing.zip")).panicValue = some .nilDereference ∧
    (main demo (str "missing.zip")).panicValue ≠
      some (.os (str "open: no such file or directory")) ∧
    (main demo (str "missing.zip")).visited = [str "missing.zip"] ∧
    (main demo (str "missing.zip")).s.files = none := by
  decide

end Yomitai
